import Mathlib

/-!
Shallow embedding of the practice (spaced-repetition) core of the
pawn-appetit repository: the deck builder, review scheduler and deck
store operations found in `src/features/files/utils/opening.ts` and the
seed-if-empty effect of `src/components/panels/practice/PracticePanel.tsx`.

Timestamps are modelled as natural numbers; every read of the ambient
clock (`new Date()`) in the source becomes an explicit `now` argument.
The spaced-repetition engine (the external `ts-fsrs` collaborator) is kept
abstract: grading takes the engine as a function argument, and the
freshly-initialized card follows the spec's external-interface contract
(zero repetitions, immediately due).
-/

namespace PawnAppetit

/-- A move-tree node: `fen`, the move text `san` (absent at the root),
`halfMoves` (ply count), and the ordered children. -/
inductive TreeNode : Type where
  | mk : String → Option String → Nat → List TreeNode → TreeNode

def TreeNode.fen : TreeNode → String
  | .mk f _ _ _ => f

def TreeNode.san : TreeNode → Option String
  | .mk _ s _ _ => s

def TreeNode.halfMoves : TreeNode → Nat
  | .mk _ _ h _ => h

def TreeNode.children : TreeNode → List TreeNode
  | .mk _ _ _ c => c

/-- The side being practiced (`headers.orientation`). -/
inductive Color : Type where
  | white
  | black
deriving DecidableEq

/-- Scheduling state of one card, as exposed by the external engine:
the source only inspects `reps` (zero vs non-zero) and `due`. -/
structure Card where
  due : Nat
  stability : Nat
  difficulty : Nat
  reps : Nat
deriving DecidableEq, Repr

/-- Modelled from the spec: the external engine's freshly-initialized
scheduling state (`createEmptyCard()` of the `ts-fsrs` collaborator):
zero repetitions, immediately due, i.e. due at the creation instant
(the source calls it with no argument, which defaults to the clock). -/
def createEmptyCard (now : Nat) : Card :=
  { due := now, stability := 0, difficulty := 0, reps := 0 }

/-- One practice unit (`Position` in `opening.ts`). -/
structure Position where
  fen : String
  answer : String
  card : Card
deriving DecidableEq, Repr

/-- Modelled from the spec: `@/utils/misc`'s path-prefix test is not under
`src/`; per the spec, path A is a prefix of path B iff every element of A
equals the corresponding element of B and A is no longer than B. -/
def isPrefix : List Nat → List Nat → Bool
  | [], _ => true
  | _ :: _, [] => false
  | a :: as, b :: bs => a == b && isPrefix as bs

mutual

/-- Modelled from the spec: `@/utils/treeReducer`'s traversal is not under
`src/`; per the spec it is a depth-first pre-order traversal yielding, for
every node, its position-path and the node itself, visiting every node
once with siblings in stored child order. -/
def treeIteratorFrom : TreeNode → List Nat → List (List Nat × TreeNode)
  | .mk f s h cs, path => (path, .mk f s h cs) :: treeIteratorChildren cs path 0

def treeIteratorChildren : List TreeNode → List Nat → Nat → List (List Nat × TreeNode)
  | [], _, _ => []
  | c :: rest, path, i => treeIteratorFrom c (path ++ [i]) ++ treeIteratorChildren rest path (i + 1)

end

def treeIterator (t : TreeNode) : List (List Nat × TreeNode) :=
  treeIteratorFrom t []

/-- JavaScript truthiness of `children[0].san`: absent or empty is falsy. -/
def sanFalsy : Option String → Bool
  | none => true
  | some s => s == ""

def firstChildSan (node : TreeNode) : Option String :=
  match node.children with
  | [] => none
  | c :: _ => c.san

/-- One iteration of the loop body of `buildFromTree` in `opening.ts`:
skip when the node is a leaf, its path is a prefix of `start`, the first
child's move text is falsy, or a card with this fen was already pushed;
otherwise push a card when the ply parity matches the requested color. -/
def buildStep (color : Color) (start : List Nat) (now : Nat)
    (cards : List Position) (item : List Nat × TreeNode) : List Position :=
  if item.2.children.length = 0 ∨ isPrefix item.1 start = true ∨
      sanFalsy (firstChildSan item.2) = true ∨ (∃ c ∈ cards, c.fen = item.2.fen) then
    cards
  else if (color = Color.white ∧ item.2.halfMoves % 2 = 0) ∨
      (color = Color.black ∧ item.2.halfMoves % 2 = 1) then
    cards ++ [{ fen := item.2.fen, answer := (firstChildSan item.2).getD "",
                card := createEmptyCard now }]
  else
    cards

/-- `buildFromTree`'s loop over an explicit item list (the iterator's
output), accumulating `cards` from the front. -/
def buildFromList (items : List (List Nat × TreeNode)) (color : Color)
    (start : List Nat) (now : Nat) : List Position :=
  items.foldl (buildStep color start now) []

/-- `buildFromTree(tree, color, start)` of `opening.ts`; `now` is the
clock instant at which the fresh cards are initialized. -/
def buildFromTree (tree : TreeNode) (color : Color) (start : List Nat)
    (now : Nat) : List Position :=
  buildFromList (treeIterator tree) color start now

/-- The `Stats` record of `opening.ts`. -/
structure Stats where
  unseen : Nat
  due : Nat
  practiced : Nat
  nextDue : Option Nat
  total : Nat
deriving DecidableEq, Repr

/-- One iteration of the loop body of `getStats`: bucket the card as
unseen (reps = 0), due (due ≤ now) or practiced, and track the earliest
due timestamp among non-unseen cards. -/
def statsStep (now : Nat) (stats : Stats) (card : Position) : Stats :=
  if card.card.reps = 0 then
    { stats with unseen := stats.unseen + 1 }
  else
    let stats1 :=
      if card.card.due ≤ now then { stats with due := stats.due + 1 }
      else { stats with practiced := stats.practiced + 1 }
    match stats1.nextDue with
    | none => { stats1 with nextDue := some card.card.due }
    | some nd =>
      if card.card.due < nd then { stats1 with nextDue := some card.card.due } else stats1

/-- `getStats(positions)` of `opening.ts`; the single `new Date()` the
source captures before the loop is the explicit `now`. -/
def getStats (positions : List Position) (now : Nat) : Stats :=
  positions.foldl (statsStep now)
    { unseen := 0, due := 0, practiced := 0, nextDue := none, total := positions.length }

/-- A JavaScript-level result: a value, `null`, or `undefined`.
`getCardForReview` returns `null` explicitly in deterministic mode but
an out-of-bounds index access (`undefined`) in random mode. -/
inductive JsResult (α : Type) : Type where
  | val : α → JsResult α
  | null : JsResult α
  | undef : JsResult α
deriving DecidableEq, Repr

/-- `getCardForReview(positions, options)` of `opening.ts`.
`randomIndex` stands for `Math.floor(Math.random() * positions.length)`;
on an empty list that expression is `Math.floor(0) = 0`, and any index
into an empty array reads `undefined`. In deterministic mode the source
filters the cards due at `now` and returns the first, or `null`. -/
def getCardForReview (positions : List Position) (random : Bool)
    (randomIndex : Nat) (now : Nat) : JsResult Position :=
  if random then
    match positions[randomIndex]? with
    | some p => JsResult.val p
    | none => JsResult.undef
  else
    match positions.filter (fun position => decide (position.card.due ≤ now)) with
    | [] => JsResult.null
    | c :: _ => JsResult.val c

/-- The engine's per-grade outcome: next schedule plus a log record. -/
structure LogRec where
  rating : Nat
  due : Nat
deriving DecidableEq, Repr

/-- A persisted log entry: the engine's log record tagged with the fen
of the graded card. -/
structure LogEntry where
  rating : Nat
  due : Nat
  fen : String
deriving DecidableEq, Repr

/-- The engine's `repeat` result: one `(card, log)` outcome for each of
the four grades (the object returned by `f.repeat(card, now)`). -/
structure RecordLog where
  again : Card × LogRec
  hard : Card × LogRec
  good : Card × LogRec
  easy : Card × LogRec
deriving DecidableEq, Repr

/-- Indexing `schedulingCards[grade]`: defined for grades 1 to 4 only;
any other grade reads `undefined`. -/
def RecordLog.lookup (r : RecordLog) (grade : Nat) : Option (Card × LogRec) :=
  match grade with
  | 1 => some r.again
  | 2 => some r.hard
  | 3 => some r.good
  | 4 => some r.easy
  | _ => none

/-- The engine collaborator: `f.repeat(card, now)`. -/
def Engine : Type :=
  Card → Nat → RecordLog

/-- The persisted deck aggregate (`PracticeData`): cards plus logs. -/
structure PracticeData where
  positions : List Position
  logs : List LogEntry
deriving DecidableEq, Repr

/-- `updateCardPerformance(setPositions, i, card, grade)` of `opening.ts`,
as the atomic transform its single state-setter call applies to the deck.
The two `Except.error` branches are the `TypeError`s the source throws —
destructuring `schedulingCards[grade]` when the grade is outside 1..4,
and reading `data.positions[i].fen` when `i` is out of bounds — in the
order the source reaches them; in both cases the setter never commits,
so the deck is left unchanged. -/
def updateCardPerformance (f : Engine) (deck : PracticeData) (i : Nat)
    (card : Card) (grade : Nat) (now : Nat) : Except String PracticeData :=
  let schedulingCards := f card now
  match schedulingCards.lookup grade with
  | none => Except.error "TypeError: cannot destructure property of undefined"
  | some (newCard, log) =>
    match deck.positions[i]? with
    | none => Except.error "TypeError: cannot read properties of undefined"
    | some pos =>
      Except.ok
        { positions := deck.positions.set i { pos with card := newCard },
          logs := deck.logs ++ [{ rating := log.rating, due := log.due, fen := pos.fen }] }

/-- The seed-if-empty effect of `PracticePanel.tsx`: rebuild from the
tree; if the build is non-empty and the deck's positions are empty,
replace the whole deck with the fresh positions and an empty log list,
otherwise leave the deck alone. -/
def seedIfEmpty (root : TreeNode) (orientation : Color) (start : List Nat)
    (now : Nat) (deck : PracticeData) : PracticeData :=
  let newDeck := buildFromTree root orientation start now
  if newDeck.length > 0 ∧ deck.positions.length = 0 then
    { positions := newDeck, logs := [] }
  else
    deck

/-- A concrete three-node line (root, one White move, one Black reply)
used by concrete-input theorems: its only branch point eligible for the
Black side is the node at ply 1. -/
def exTree : TreeNode :=
  TreeNode.mk "startfen" none 0
    [TreeNode.mk "fen1" (some "e4") 1
      [TreeNode.mk "fen2" (some "e5") 2 []]]

def statsNextDueUpdate (t : Stats) (d : Nat) : Stats :=
  match t.nextDue with
  | none => { t with nextDue := some d }
  | some nd => if d < nd then { t with nextDue := some d } else t

/-- A small concrete engine used by concrete-input theorems: each grade
advances `due` by the grade and bumps `reps`. -/
def exEngine : Engine := fun card now =>
  { again := ({ card with due := now + 1, reps := card.reps + 1 }, { rating := 1, due := now + 1 }),
    hard := ({ card with due := now + 2, reps := card.reps + 1 }, { rating := 2, due := now + 2 }),
    good := ({ card with due := now + 3, reps := card.reps + 1 }, { rating := 3, due := now + 3 }),
    easy := ({ card with due := now + 4, reps := card.reps + 1 }, { rating := 4, due := now + 4 }) }

def exCard : Card := { due := 0, stability := 0, difficulty := 0, reps := 0 }

def exPos0 : Position := { fen := "f0", answer := "a0", card := exCard }

def exPos1 : Position :=
  { fen := "f1", answer := "a1", card := { due := 7, stability := 0, difficulty := 0, reps := 2 } }

def exDeck2 : PracticeData :=
  { positions := [exPos0, exPos1], logs := [{ rating := 2, due := 3, fen := "f0" }] }

/-- A deck with empty positions but a non-empty log, on which seeding
erases the log. -/
def exLoggedDeck : PracticeData :=
  { positions := [], logs := [{ rating := 4, due := 0, fen := "z" }] }

/-- Re-stamp a card's freshly-initialized schedule with another creation
instant, leaving `fen` and `answer` alone. -/
def restampCard (now : Nat) (p : Position) : Position :=
  { p with card := createEmptyCard now }

end PawnAppetit

namespace PawnAppetit

lemma buildStep_pairwise_fen (color : Color) (start : List Nat) (now : Nat)
    (cards : List Position) (item : List Nat × TreeNode)
    (h : cards.Pairwise fun a b => a.fen ≠ b.fen) :
    (buildStep color start now cards item).Pairwise fun a b => a.fen ≠ b.fen := by
  unfold buildStep
  split
  · exact h
  · rename_i hguard
    split
    · refine List.pairwise_append.mpr ⟨h, List.pairwise_singleton _ _, ?_⟩
      intro a ha b hb
      simp only [List.mem_singleton] at hb
      subst hb
      push_neg at hguard
      exact hguard.2.2.2 a ha
    · exact h

lemma buildFold_pairwise_fen (color : Color) (start : List Nat) (now : Nat) :
    ∀ (items : List (List Nat × TreeNode)) (cards : List Position),
      (cards.Pairwise fun a b => a.fen ≠ b.fen) →
      ((items.foldl (buildStep color start now) cards).Pairwise fun a b => a.fen ≠ b.fen)
  | [], _, h => h
  | item :: rest, cards, h =>
    buildFold_pairwise_fen color start now rest _ (buildStep_pairwise_fen color start now cards item h)

/-- C7: for every tree, side and mastered-prefix, the cards returned by
`buildFromTree` have pairwise distinct `fen` values. -/
theorem buildFromTree_fen_unique (tree : TreeNode) (color : Color)
    (start : List Nat) (now : Nat) :
    (buildFromTree tree color start now).Pairwise fun a b => a.fen ≠ b.fen :=
  buildFold_pairwise_fen color start now (treeIterator tree) [] (List.Pairwise.nil)

lemma buildStep_of_isPrefix (color : Color) (start : List Nat) (now : Nat)
    (cards : List Position) (item : List Nat × TreeNode)
    (h : isPrefix item.1 start = true) :
    buildStep color start now cards item = cards := by
  unfold buildStep
  rw [if_pos (Or.inr (Or.inl h))]

lemma buildFold_filter_not_isPrefix (color : Color) (start : List Nat) (now : Nat) :
    ∀ (items : List (List Nat × TreeNode)) (cards : List Position),
      ((items.filter fun it => !(isPrefix it.1 start)).foldl (buildStep color start now) cards) =
        items.foldl (buildStep color start now) cards := by
  intro items
  induction items with
  | nil => intro cards; rfl
  | cons item rest ih =>
    intro cards
    by_cases hp : isPrefix item.1 start = true
    · rw [List.filter_cons, if_neg (by simp [hp]), List.foldl_cons,
        buildStep_of_isPrefix color start now cards item hp]
      exact ih cards
    · rw [List.filter_cons, if_pos (by simp [hp]), List.foldl_cons, List.foldl_cons]
      exact ih _

lemma isPrefix_length_le : ∀ (a b : List Nat), isPrefix a b = true → a.length ≤ b.length
  | [], _, _ => Nat.zero_le _
  | _ :: _, [], h => by simp [isPrefix] at h
  | a :: as, b :: bs, h => by
    simp only [isPrefix, Bool.and_eq_true, beq_iff_eq] at h
    simpa using isPrefix_length_le as bs h.2

lemma isPrefix_antisymm : ∀ (a b : List Nat),
    isPrefix a b = true → isPrefix b a = true → a = b
  | [], [], _, _ => rfl
  | [], _ :: _, _, h2 => by simp [isPrefix] at h2
  | _ :: _, [], h1, _ => by simp [isPrefix] at h1
  | a :: as, b :: bs, h1, h2 => by
    simp only [isPrefix, Bool.and_eq_true, beq_iff_eq] at h1 h2
    rw [h1.1, isPrefix_antisymm as bs h1.2 h2.2]

/-- C2: the prefix-exclusion rule of `buildFromTree` is directional.
First, nodes whose path is a prefix of the mastered-prefix path `start`
contribute nothing to the build: dropping them from the traversal leaves
the result unchanged. Second, a candidate path that strictly extends the
mastered path is never caught by this rule. -/
theorem buildFromTree_prefix_exclusion (tree : TreeNode) (color : Color)
    (start : List Nat) (now : Nat) :
    buildFromTree tree color start now =
      buildFromList ((treeIterator tree).filter fun it => !(isPrefix it.1 start))
        color start now
    ∧ ∀ path : List Nat, isPrefix start path = true → path ≠ start →
        isPrefix path start = false := by
  constructor
  · exact (buildFold_filter_not_isPrefix color start now (treeIterator tree) []).symm
  · intro path h1 h2
    by_contra hc
    exact h2 (isPrefix_antisymm path start (Bool.not_eq_false _ ▸ hc) h1)

/-- A concrete instance of the directional prefix check in C2: the strict
extension `[0, 1]` of the mastered path `[0]` is not excluded. -/
theorem buildFromTree_prefix_exclusion_witness : isPrefix [0, 1] [0] = false :=
  (buildFromTree_prefix_exclusion exTree Color.white [0] 0).2 [0, 1] (by decide) (by decide)

end PawnAppetit

namespace PawnAppetit

lemma filter_match_eq_find? (p : Position → Bool) :
    ∀ ps : List Position,
      (match ps.filter p with
       | [] => JsResult.null
       | c :: _ => JsResult.val c) =
      (match ps.find? p with
       | some c => JsResult.val c
       | none => JsResult.null)
  | [] => rfl
  | a :: as => by
    by_cases h : p a = true
    · simp [List.filter_cons, List.find?_cons, h]
    · simp only [List.filter_cons, List.find?_cons, h, if_neg, Bool.false_eq_true,
        not_false_iff, if_false]
      simpa [h] using filter_match_eq_find? p as

lemma getCardForReview_false_eq (positions : List Position) (randomIndex now : Nat) :
    getCardForReview positions false randomIndex now =
      (match positions.filter (fun position => decide (position.card.due ≤ now)) with
       | [] => JsResult.null
       | c :: _ => JsResult.val c) := rfl

/-- C3: in deterministic mode `getCardForReview` returns the first card in
list order whose `due` is at most `now` (the `find?` of the list), and
returns `null` exactly when no card is due; on a concrete deck whose
second card has the earlier due timestamp it still returns the first card.
The embedding is a pure function of the list, which it never mutates. -/
theorem getCardForReview_deterministic (positions : List Position)
    (randomIndex now : Nat) :
    (getCardForReview positions false randomIndex now =
      match positions.find? (fun position => decide (position.card.due ≤ now)) with
      | some c => JsResult.val c
      | none => JsResult.null)
    ∧ (getCardForReview positions false randomIndex now = JsResult.null ↔
        ∀ position ∈ positions, ¬ position.card.due ≤ now)
    ∧ getCardForReview
        [{ fen := "a", answer := "x",
           card := { due := 5, stability := 0, difficulty := 0, reps := 1 } },
         { fen := "b", answer := "y",
           card := { due := 3, stability := 0, difficulty := 0, reps := 1 } }]
        false 0 10 =
      JsResult.val
        { fen := "a", answer := "x",
          card := { due := 5, stability := 0, difficulty := 0, reps := 1 } } := by
  refine ⟨?_, ?_, by decide⟩
  · rw [getCardForReview_false_eq]
    exact filter_match_eq_find? _ positions
  · rw [getCardForReview_false_eq]
    rcases hf : positions.filter (fun position => decide (position.card.due ≤ now)) with _ | ⟨c, rest⟩
    · rw [hf]
      simp only [List.filter_eq_nil_iff] at hf
      simpa using hf
    · rw [hf]
      constructor
      · intro hcontra
        simp at hcontra
      · intro hall
        have h0 : positions.filter (fun position => decide (position.card.due ≤ now)) = [] := by
          rw [List.filter_eq_nil_iff]
          simpa using hall
        rw [hf] at h0
        simp at h0

/-- C10: on an empty card list, random mode reads index 0 of an empty
array and yields `undefined` (for any value of the random index, since
`Math.floor(r * 0) = 0`), while deterministic mode yields `null`; the two
"no card" results are distinct values. -/
theorem getCardForReview_empty_modes (randomIndex now : Nat) :
    getCardForReview [] true randomIndex now = JsResult.undef
    ∧ getCardForReview [] false randomIndex now = JsResult.null
    ∧ (JsResult.undef : JsResult Position) ≠ JsResult.null := by
  refine ⟨?_, rfl, by decide⟩
  simp [getCardForReview]

end PawnAppetit

namespace PawnAppetit


lemma statsNextDueUpdate_unseen (t : Stats) (d : Nat) :
    (statsNextDueUpdate t d).unseen = t.unseen := by
  unfold statsNextDueUpdate
  split
  · rfl
  · split <;> rfl

lemma statsNextDueUpdate_due (t : Stats) (d : Nat) :
    (statsNextDueUpdate t d).due = t.due := by
  unfold statsNextDueUpdate
  split
  · rfl
  · split <;> rfl

lemma statsNextDueUpdate_practiced (t : Stats) (d : Nat) :
    (statsNextDueUpdate t d).practiced = t.practiced := by
  unfold statsNextDueUpdate
  split
  · rfl
  · split <;> rfl

lemma statsNextDueUpdate_total (t : Stats) (d : Nat) :
    (statsNextDueUpdate t d).total = t.total := by
  unfold statsNextDueUpdate
  split
  · rfl
  · split <;> rfl

lemma statsStep_eq (now : Nat) (s : Stats) (c : Position) :
    statsStep now s c =
      if c.card.reps = 0 then { s with unseen := s.unseen + 1 }
      else
        statsNextDueUpdate
          (if c.card.due ≤ now then { s with due := s.due + 1 }
           else { s with practiced := s.practiced + 1 })
          c.card.due := rfl

lemma statsStep_counts (now : Nat) (s : Stats) (c : Position) :
    (statsStep now s c).unseen = s.unseen + (if c.card.reps = 0 then 1 else 0)
    ∧ (statsStep now s c).due =
        s.due + (if c.card.reps ≠ 0 ∧ c.card.due ≤ now then 1 else 0)
    ∧ (statsStep now s c).practiced =
        s.practiced + (if c.card.reps ≠ 0 ∧ ¬ c.card.due ≤ now then 1 else 0)
    ∧ (statsStep now s c).total = s.total := by
  rw [statsStep_eq]
  by_cases hr : c.card.reps = 0
  · simp [hr]
  · by_cases hd : c.card.due ≤ now <;>
      simp [hr, hd, statsNextDueUpdate_unseen, statsNextDueUpdate_due,
        statsNextDueUpdate_practiced, statsNextDueUpdate_total]

lemma statsFold_counts (now : Nat) :
    ∀ (ps : List Position) (s : Stats),
      (ps.foldl (statsStep now) s).unseen =
        s.unseen + ps.countP (fun p => decide (p.card.reps = 0))
      ∧ (ps.foldl (statsStep now) s).due =
          s.due + ps.countP (fun p => decide (p.card.reps ≠ 0 ∧ p.card.due ≤ now))
      ∧ (ps.foldl (statsStep now) s).practiced =
          s.practiced + ps.countP (fun p => decide (p.card.reps ≠ 0 ∧ ¬ p.card.due ≤ now))
      ∧ (ps.foldl (statsStep now) s).total = s.total
  | [], s => by simp
  | c :: rest, s => by
    obtain ⟨h1, h2, h3, h4⟩ := statsFold_counts now rest (statsStep now s c)
    obtain ⟨g1, g2, g3, g4⟩ := statsStep_counts now s c
    refine ⟨?_, ?_, ?_, ?_⟩ <;>
      simp only [List.foldl_cons, h1, h2, h3, h4, g1, g2, g3, g4, List.countP_cons] <;>
      by_cases hr : c.card.reps = 0 <;> by_cases hd : c.card.due ≤ now <;>
      simp [hr, hd] <;> omega

end PawnAppetit

namespace PawnAppetit

/-- C8: `getStats` buckets every card exactly once — `unseen` counts the
cards with zero reps, `due` those with positive reps due at the single
captured `now`, `practiced` the remaining ones — so the three counts sum
to `total`, which is the length of the list; on the empty list all counts
are zero and there is no `nextDue`. -/
theorem getStats_partition (positions : List Position) (now : Nat) :
    (getStats positions now).total = positions.length
    ∧ (getStats positions now).unseen =
        positions.countP (fun p => decide (p.card.reps = 0))
    ∧ (getStats positions now).due =
        positions.countP (fun p => decide (p.card.reps ≠ 0 ∧ p.card.due ≤ now))
    ∧ (getStats positions now).practiced =
        positions.countP (fun p => decide (p.card.reps ≠ 0 ∧ ¬ p.card.due ≤ now))
    ∧ (getStats positions now).unseen + (getStats positions now).due +
        (getStats positions now).practiced = (getStats positions now).total
    ∧ getStats [] now =
        { unseen := 0, due := 0, practiced := 0, nextDue := none, total := 0 } := by
  obtain ⟨h1, h2, h3, h4⟩ :=
    statsFold_counts now positions
      { unseen := 0, due := 0, practiced := 0, nextDue := none, total := positions.length }
  have hsum : ∀ ps : List Position,
      ps.countP (fun p => decide (p.card.reps = 0)) +
        ps.countP (fun p => decide (p.card.reps ≠ 0 ∧ p.card.due ≤ now)) +
        ps.countP (fun p => decide (p.card.reps ≠ 0 ∧ ¬ p.card.due ≤ now)) = ps.length := by
    intro ps
    induction ps with
    | nil => rfl
    | cons c rest ih =>
      simp only [List.countP_cons, List.length_cons]
      by_cases hr : c.card.reps = 0 <;> by_cases hd : c.card.due ≤ now <;>
        simp [hr, hd] at ih ⊢ <;> omega
  refine ⟨?_, ?_, ?_, ?_, ?_, rfl⟩
  · simpa [getStats] using h4
  · simpa [getStats] using h1
  · simpa [getStats] using h2
  · simpa [getStats] using h3
  · simp only [getStats] at h1 h2 h3 h4 ⊢
    rw [h1, h2, h3, h4]
    simpa using hsum positions

end PawnAppetit

namespace PawnAppetit

/-- C4: for a valid index and a grade the engine schedules (grades 1..4
are exactly those `RecordLog.lookup` serves), grading returns a single
new deck in one step — atomic by construction, as the source applies one
updater to the state — whose logs are the old logs plus exactly one entry
tagged with card `i`'s fen, whose card `i` carries the engine outcome for
the supplied grade, and whose other cards are untouched. -/
theorem updateCardPerformance_atomic (f : Engine) (deck : PracticeData)
    (i : Nat) (card : Card) (grade : Nat) (now : Nat) (pos : Position)
    (newCard : Card) (log : LogRec)
    (hi : deck.positions[i]? = some pos)
    (hg : (f card now).lookup grade = some (newCard, log)) :
    updateCardPerformance f deck i card grade now =
      Except.ok
        { positions := deck.positions.set i { pos with card := newCard },
          logs := deck.logs ++ [{ rating := log.rating, due := log.due, fen := pos.fen }] }
    ∧ (deck.positions.set i { pos with card := newCard })[i]? =
        some { pos with card := newCard }
    ∧ (∀ j : Nat, j ≠ i →
        (deck.positions.set i { pos with card := newCard })[j]? = deck.positions[j]?)
    ∧ (deck.positions.set i { pos with card := newCard }).length =
        deck.positions.length := by
  have hlen : i < deck.positions.length := by
    by_contra hc
    rw [List.getElem?_eq_none (Nat.le_of_not_lt hc)] at hi
    exact Option.noConfusion hi
  refine ⟨?_, List.getElem?_set_self hlen, ?_, List.length_set _ _ _⟩
  · simp only [updateCardPerformance]
    rw [hg, hi]
  · intro j hj
    exact List.getElem?_set_ne (fun h => hj h.symm)

/-- C6: grading with an out-of-bounds index or a grade outside 1..4 makes
the source throw (`schedulingCards[grade]` destructures `undefined`, or
`data.positions[i].fen` reads a property of `undefined`) before any state
is committed, so the call signals an error instead of producing a deck. -/
theorem updateCardPerformance_invalid_args (f : Engine) (deck : PracticeData)
    (i : Nat) (card : Card) (grade : Nat) (now : Nat)
    (h : deck.positions.length ≤ i ∨ ¬(1 ≤ grade ∧ grade ≤ 4)) :
    ∃ msg, updateCardPerformance f deck i card grade now = Except.error msg := by
  rcases hg : (f card now).lookup grade with _ | ⟨newCard, log⟩
  · refine ⟨"TypeError: cannot destructure property of undefined", ?_⟩
    simp only [updateCardPerformance]
    rw [hg]
  · have hgrade : 1 ≤ grade ∧ grade ≤ 4 := by
      rcases grade with _ | _ | _ | _ | _ | n
      · simp [RecordLog.lookup] at hg
      · exact ⟨Nat.le_refl 1, by omega⟩
      · exact ⟨by omega, by omega⟩
      · exact ⟨by omega, by omega⟩
      · exact ⟨by omega, by omega⟩
      · simp [RecordLog.lookup] at hg
    have hlen : deck.positions.length ≤ i := h.resolve_right (fun hc => hc hgrade)
    refine ⟨"TypeError: cannot read properties of undefined", ?_⟩
    simp only [updateCardPerformance]
    rw [hg, List.getElem?_eq_none hlen]

end PawnAppetit

namespace PawnAppetit






/-- Concrete instance of the atomic-grading theorem: grading card 0 of a
two-card deck with grade 4 at time 10. -/
theorem updateCardPerformance_atomic_witness :
    exDeck2.positions[0]? = some exPos0
    ∧ (exEngine exCard 10).lookup 4 =
        some ({ exCard with due := 14, reps := 1 }, { rating := 4, due := 14 })
    ∧ updateCardPerformance exEngine exDeck2 0 exCard 4 10 =
        Except.ok
          { positions := exDeck2.positions.set 0 { exPos0 with card := { exCard with due := 14, reps := 1 } },
            logs := exDeck2.logs ++ [{ rating := 4, due := 14, fen := exPos0.fen }] } :=
  ⟨by decide, by decide,
    (updateCardPerformance_atomic exEngine exDeck2 0 exCard 4 10 exPos0
      { exCard with due := 14, reps := 1 } { rating := 4, due := 14 }
      (by decide) (by decide)).1⟩

/-- Concrete instance of the invalid-argument theorem: index 5 is out of
bounds for the two-card deck, and the call errors. -/
theorem updateCardPerformance_invalid_args_witness :
    (exDeck2.positions.length ≤ 5 ∨ ¬(1 ≤ 2 ∧ 2 ≤ 4))
    ∧ ∃ msg, updateCardPerformance exEngine exDeck2 5 exCard 2 10 = Except.error msg :=
  ⟨Or.inl (by decide),
    updateCardPerformance_invalid_args exEngine exDeck2 5 exCard 2 10 (Or.inl (by decide))⟩


/-- C1 counterexample: on a deck with empty positions and one log entry,
and a tree whose build yields one card, seeding does not leave `logs` as
it was — the source writes `logs: []`, erasing the entry. -/
theorem seedIfEmpty_clears_logs_counterexample :
    exLoggedDeck.positions = []
    ∧ 0 < (buildFromTree exTree Color.black [] 0).length
    ∧ (seedIfEmpty exTree Color.black [] 0 exLoggedDeck).logs ≠ exLoggedDeck.logs := by
  decide

/-- C1 amended: when positions are empty and the build yields at least one
card, seeding replaces the whole deck with the built positions and an
empty log sequence; `logs` is therefore left exactly as it was precisely
when it was already empty (the only state the store can reach for a deck
with empty positions), not in general. -/
theorem seedIfEmpty_replaces_positions (tree : TreeNode) (color : Color)
    (start : List Nat) (now : Nat) (deck : PracticeData)
    (hpos : deck.positions = [])
    (hbuild : 0 < (buildFromTree tree color start now).length) :
    seedIfEmpty tree color start now deck =
      { positions := buildFromTree tree color start now, logs := [] }
    ∧ (deck.logs = [] → (seedIfEmpty tree color start now deck).logs = deck.logs) := by
  have hcond : (buildFromTree tree color start now).length > 0 ∧ deck.positions.length = 0 :=
    ⟨hbuild, by simp [hpos]⟩
  have hmain : seedIfEmpty tree color start now deck =
      { positions := buildFromTree tree color start now, logs := [] } := by
    simp only [seedIfEmpty]
    rw [if_pos hcond]
  exact ⟨hmain, fun hlogs => by rw [hmain, hlogs]⟩

/-- Concrete instance of the amended seeding theorem, on a deck whose
logs are empty. -/
theorem seedIfEmpty_replaces_positions_witness :
    (⟨[], []⟩ : PracticeData).positions = []
    ∧ 0 < (buildFromTree exTree Color.black [] 0).length
    ∧ seedIfEmpty exTree Color.black [] 0 ⟨[], []⟩ =
        { positions := buildFromTree exTree Color.black [] 0, logs := [] } :=
  ⟨rfl, by decide,
    (seedIfEmpty_replaces_positions exTree Color.black [] 0 ⟨[], []⟩ rfl (by decide)).1⟩

/-- C5: seeding a deck whose positions are non-empty is a no-op — the
guard `deck.positions.length === 0` fails, so neither positions nor logs
change — and hence seeding twice is also a no-op. -/
theorem seedIfEmpty_idempotent (tree : TreeNode) (color : Color)
    (start : List Nat) (now : Nat) (deck : PracticeData)
    (h : deck.positions ≠ []) :
    seedIfEmpty tree color start now deck = deck
    ∧ seedIfEmpty tree color start now (seedIfEmpty tree color start now deck) = deck := by
  have hcond : ¬((buildFromTree tree color start now).length > 0 ∧
      deck.positions.length = 0) := by
    rintro ⟨-, hlen⟩
    exact h (List.length_eq_zero.mp hlen)
  have h1 : seedIfEmpty tree color start now deck = deck := by
    simp only [seedIfEmpty]
    rw [if_neg hcond]
  exact ⟨h1, by rw [h1, h1]⟩

/-- Concrete instance of idempotent seeding on a one-card deck. -/
theorem seedIfEmpty_idempotent_witness :
    (⟨[exPos0], []⟩ : PracticeData).positions ≠ []
    ∧ seedIfEmpty exTree Color.black [] 0 ⟨[exPos0], []⟩ = ⟨[exPos0], []⟩ :=
  ⟨by decide, (seedIfEmpty_idempotent exTree Color.black [] 0 ⟨[exPos0], []⟩ (by decide)).1⟩

end PawnAppetit

namespace PawnAppetit


lemma restamp_exists_fen (n : Nat) (cards : List Position) (fen : String) :
    (∃ c ∈ cards.map (restampCard n), c.fen = fen) ↔ ∃ c ∈ cards, c.fen = fen := by
  simp [restampCard]

lemma buildStep_restamp (color : Color) (start : List Nat) (n₁ n₂ : Nat)
    (cards : List Position) (item : List Nat × TreeNode) :
    buildStep color start n₂ (cards.map (restampCard n₂)) item =
      (buildStep color start n₁ cards item).map (restampCard n₂) := by
  unfold buildStep
  simp only [restamp_exists_fen]
  split_ifs <;> simp [restampCard, createEmptyCard]

lemma buildFold_restamp (color : Color) (start : List Nat) (n₁ n₂ : Nat) :
    ∀ (items : List (List Nat × TreeNode)) (cards : List Position),
      items.foldl (buildStep color start n₂) (cards.map (restampCard n₂)) =
        (items.foldl (buildStep color start n₁) cards).map (restampCard n₂)
  | [], _ => rfl
  | item :: rest, cards => by
    rw [List.foldl_cons, List.foldl_cons, buildStep_restamp color start n₁ n₂]
    exact buildFold_restamp color start n₁ n₂ rest _

lemma buildFold_fresh (color : Color) (start : List Nat) (now : Nat) :
    ∀ (items : List (List Nat × TreeNode)) (cards : List Position),
      (∀ p ∈ cards, p.card = createEmptyCard now) →
      ∀ p ∈ items.foldl (buildStep color start now) cards, p.card = createEmptyCard now
  | [], _, h => h
  | item :: rest, cards, h => by
    rw [List.foldl_cons]
    refine buildFold_fresh color start now rest _ ?_
    unfold buildStep
    split_ifs
    · exact h
    · intro p hp
      rcases List.mem_append.mp hp with hl | hr
      · exact h p hl
      · simp only [List.mem_singleton] at hr
        rw [hr]
    · exact h

/-- C9 counterexample: two calls of `buildFromTree` with identical tree,
side and mastered-prefix but made at different instants return different
card sequences — the freshly-initialized schedules stamp the clock. -/
theorem buildFromTree_time_counterexample :
    buildFromTree exTree Color.black [] 0 ≠ buildFromTree exTree Color.black [] 1 := by
  decide

/-- C9 amended: `buildFromTree` is a pure function of tree, side,
mastered-prefix and the instant of the call: the results of two calls
differ at most in the cards' freshly-stamped schedule (every card carries
exactly `createEmptyCard` of the call instant), and calls at the same
instant return identical sequences. -/
theorem buildFromTree_deterministic (tree : TreeNode) (color : Color)
    (start : List Nat) (n₁ n₂ : Nat) :
    buildFromTree tree color start n₂ =
      (buildFromTree tree color start n₁).map (restampCard n₂)
    ∧ (∀ p ∈ buildFromTree tree color start n₁, p.card = createEmptyCard n₁)
    ∧ (n₁ = n₂ → buildFromTree tree color start n₁ = buildFromTree tree color start n₂) := by
  refine ⟨?_, ?_, fun h => by rw [h]⟩
  · have h := buildFold_restamp color start n₁ n₂ (treeIterator tree) []
    simpa [buildFromTree, buildFromList] using h
  · exact buildFold_fresh color start n₁ (treeIterator tree) [] (by simp)

/-- Concrete instance of the amended determinism theorem: the one card
built from the example tree at instant 0 carries the fresh schedule
stamped 0. -/
theorem buildFromTree_deterministic_witness :
    ({ fen := "fen1", answer := "e5", card := createEmptyCard 0 } : Position) ∈
      buildFromTree exTree Color.black [] 0
    ∧ ({ fen := "fen1", answer := "e5", card := createEmptyCard 0 } : Position).card =
        createEmptyCard 0 :=
  ⟨by decide, (buildFromTree_deterministic exTree Color.black [] 0 0).2.1 _ (by decide)⟩

end PawnAppetit
